import Mathlib

/-!
Shallow embedding of the lockfile-to-graph parsing engine of the
dependency-visualizer repository (src/lib/utils/lockfileParser.ts,
current revision) together with theorems settling the frozen claims
about it.  JavaScript strings are modelled as Lean strings and the
string primitives the parser uses (split, trim, substring, indexOf,
replace, the dependency-line regular expression) are implemented over
the character list so that every definition evaluates inside the
kernel.  JSON documents are modelled as already-parsed structures: a
call to JSON.parse is the boundary of the embedding.
-/

set_option autoImplicit false

namespace DepVis

/-- Dependency kind as used in the type fields of nodes and links. -/
inductive DepKind where
  | prod
  | dev
  | peer
  | optionalK
  deriving DecidableEq, Repr

/-- NodeType of the source: id, name, version, optional kind and the
version-conflict flag (absent in JS is modelled as false). -/
structure NodeType where
  id : String
  name : String
  version : String
  type : Option DepKind := none
  hasMultipleVersions : Bool := false
  deriving DecidableEq, Repr

/-- LinkType of the source: source id, target id, optional kind. -/
structure LinkType where
  source : String
  target : String
  type : Option DepKind := none
  deriving DecidableEq, Repr

/-- DependencyGraphData of the source: the parsed graph. -/
structure DependencyGraphData where
  nodes : List NodeType
  links : List LinkType
  deriving DecidableEq, Repr

/-! ### JavaScript string primitives over character lists -/

/-- JS string-or-default, as in `x || d`: undefined and the empty
string are falsy. -/
def jsOrStr (x : Option String) (d : String) : String :=
  match x with
  | none => d
  | some s => if s = "" then d else s

/-- Fuel-driven split of a character list on a non-empty separator,
mirroring JS String.prototype.split: non-overlapping occurrences,
scanned left to right.  The fuel is a structural-recursion device; it
is always at least the length of the list plus one, so it never runs
out. -/
def splitListF (sep : List Char) : Nat → List Char → List (List Char)
  | 0, cs => [cs]
  | _ + 1, [] => [[]]
  | f + 1, c :: cs =>
    if sep ≠ [] ∧ sep.isPrefixOf (c :: cs) then
      [] :: splitListF sep f ((c :: cs).drop sep.length)
    else
      match splitListF sep f cs with
      | [] => [[c]]
      | h :: t => (c :: h) :: t

/-- JS `s.split(sep)` for a non-empty separator. -/
def jsSplit (sep s : String) : List String :=
  (splitListF sep.toList (s.toList.length + 1) s.toList).map fun l => ⟨l⟩

/-- JS `s.trim()`: strip whitespace from both ends. -/
def jsTrim (s : String) : String :=
  ⟨((s.toList.dropWhile Char.isWhitespace).reverse.dropWhile Char.isWhitespace).reverse⟩

/-- JS `s.includes(c)` for a single character. -/
def jsIncludesChar (c : Char) (s : String) : Bool :=
  s.toList.contains c

/-- JS `s.startsWith(p)`. -/
def jsStartsWith (p s : String) : Bool :=
  p.toList.isPrefixOf s.toList

/-- JS `s.substring(9)` and friends: drop the first n characters. -/
def jsDrop (n : Nat) (s : String) : String :=
  ⟨s.toList.drop n⟩

/-- JS `s.replace(/"/g, "")`: remove every double-quote character. -/
def jsRemoveQuotes (s : String) : String :=
  ⟨s.toList.filter fun c => c ≠ '"'⟩

/-- JS `s.substring(0, s.indexOf(c))`: the prefix before the first
occurrence of c, and the empty string when c does not occur (indexOf
yields -1 and substring clamps it to 0). -/
def jsPrefixBefore (c : Char) (s : String) : String :=
  if s.toList.contains c then ⟨s.toList.takeWhile fun d => d ≠ c⟩ else ""

/-! ### The package-lock document model -/

/-- One value of the legacy nested `dependencies` object: a version,
the three classification flags and the nested dependencies, again
keyed by name.  Absent fields are none, false and the empty list. -/
inductive DepDetails where
  | mk (version : Option String) (dev peer optionalF : Bool)
       (deps : List (String × DepDetails))

/-- Version field of a legacy entry. -/
def DepDetails.version : DepDetails → Option String
  | .mk v _ _ _ _ => v

/-- Dev flag of a legacy entry. -/
def DepDetails.dev : DepDetails → Bool
  | .mk _ d _ _ _ => d

/-- Peer flag of a legacy entry. -/
def DepDetails.peer : DepDetails → Bool
  | .mk _ _ p _ _ => p

/-- Optional flag of a legacy entry. -/
def DepDetails.optionalF : DepDetails → Bool
  | .mk _ _ _ o _ => o

/-- Nested dependencies of a legacy entry. -/
def DepDetails.deps : DepDetails → List (String × DepDetails)
  | .mk _ _ _ _ ds => ds

/-- One value of the modern flat `packages` table: a version, the
three classification flags and the declared dependencies as a map
from name to declared version string. -/
structure PkgEntry where
  version : Option String := none
  dev : Bool := false
  peer : Bool := false
  optionalF : Bool := false
  dependencies : List (String × String) := []
  deriving Repr

/-- A parsed package-lock.json document.  The `packages` and
`dependencies` objects are association lists in insertion order;
an absent object is the empty list. -/
structure PackageLock where
  name : Option String := none
  version : Option String := none
  packages : List (String × PkgEntry) := []
  dependencies : List (String × DepDetails) := []

/-! ### Shared graph-building state -/

/-- Mutable state threaded through parsePackageLock: the insertion
ordered node map, the link list and the name-to-version-set index
used for conflict detection. -/
structure PLState where
  nodes : List NodeType
  links : List LinkType
  pv : List (String × List String)

/-- Map.set on the node map guarded by Map.has: append the node only
when no node with its id is present. -/
def addNodeIfMissing (ns : List NodeType) (n : NodeType) : List NodeType :=
  if ns.any fun m => m.id = n.id then ns else ns ++ [n]

/-- Update of the packageVersions index: create a singleton set for a
new name, otherwise add the version to the existing set (Set.add,
so duplicates are not recorded twice). -/
def pvAdd : List (String × List String) → String → String → List (String × List String)
  | [], name, version => [(name, [version])]
  | (n, vs) :: rest, name, version =>
    if n = name then (n, if version ∈ vs then vs else vs ++ [version]) :: rest
    else (n, vs) :: pvAdd rest name version

/-- The dependency-kind precedence used by both package-lock shapes:
dev, then peer, then optional, then production. -/
def kindOf (isDev isPeer isOptional : Bool) : DepKind :=
  if isDev then .dev else if isPeer then .peer
  else if isOptional then .optionalK else .prod

/-! ### processDependenciesOldFormat (legacy nested shape) -/

/-- processDependenciesOldFormat of the source: walk the nested
dependencies depth first.  For each entry: derive the version with
the unknown sentinel, compute the sticky dev flag and the kind, track
the version, add the node if missing, push one link from the parent,
then recurse into the nested dependencies with the sticky dev flag. -/
def processDependenciesOldFormat :
    List (String × DepDetails) → String → Bool → PLState → PLState
  | [], _, _, st => st
  | (name, d) :: rest, parentId, isDev, st =>
    let version := jsOrStr d.version "unknown"
    let nodeId := name ++ "@" ++ version
    let currentIsDev := isDev || d.dev
    let ty := kindOf currentIsDev d.peer d.optionalF
    let st1 : PLState := { st with pv := pvAdd st.pv name version }
    let st2 : PLState :=
      { st1 with nodes := addNodeIfMissing st1.nodes ⟨nodeId, name, version, some ty, false⟩ }
    let st3 : PLState := { st2 with links := st2.links ++ [⟨parentId, nodeId, some ty⟩] }
    let st4 := processDependenciesOldFormat d.deps nodeId currentIsDev st3
    processDependenciesOldFormat rest parentId isDev st4
  termination_by l _ _ _ => sizeOf l
  decreasing_by
  · have h : sizeOf d.deps < sizeOf d := by
      cases d with
      | mk v a b c ds => simp [DepDetails.deps]
    simp
    omega
  · simp

/-! ### parsePackageLock (JSON-table family) -/

/-- Processing of one entry of the modern flat `packages` table: skip
the root entry, take the short name from the last path segment,
derive the kind from the entry flags, track the version, add the node
if missing, push one link per declared dependency (target rebuilt
from the verbatim declared version string), and push an extra link
from the root when the path has exactly two slash-separated
segments. -/
def processPkgEntry (rootId : String) (st : PLState) (e : String × PkgEntry) : PLState :=
  if e.1 = "" then st
  else
    let parts := jsSplit "/" e.1
    let name := parts.getLastD ""
    let version := jsOrStr e.2.version "unknown"
    let nodeId := name ++ "@" ++ version
    let ty := kindOf e.2.dev e.2.peer e.2.optionalF
    let st1 : PLState := { st with pv := pvAdd st.pv name version }
    let st2 : PLState :=
      { st1 with nodes := addNodeIfMissing st1.nodes ⟨nodeId, name, version, some ty, false⟩ }
    let depLinks := e.2.dependencies.map fun dv =>
      (⟨nodeId, dv.1 ++ "@" ++ dv.2, some ty⟩ : LinkType)
    let st3 : PLState := { st2 with links := st2.links ++ depLinks }
    if parts.length = 2 then
      { st3 with links := st3.links ++ [⟨rootId, nodeId, some ty⟩] }
    else st3

/-- The forEach over the flat packages table. -/
def processPackages (rootId : String) (entries : List (String × PkgEntry)) (st : PLState) : PLState :=
  entries.foldl (processPkgEntry rootId) st

/-- The conflict-marking post pass: for every tracked name whose
version set has more than one element, set the flag on every node
carrying that name. -/
def markConflicts (pv : List (String × List String)) (ns : List NodeType) : List NodeType :=
  pv.foldl
    (fun acc e =>
      if 1 < e.2.length then
        acc.map fun n =>
          if n.name = e.1 then { n with hasMultipleVersions := true } else n
      else acc)
    ns

/-- Root id of a package-lock document. -/
def plRootId (pl : PackageLock) : String :=
  jsOrStr pl.name "root" ++ "@" ++ jsOrStr pl.version "0.0.0"

/-- Root node of a package-lock parse, always classified production. -/
def plRootNode (pl : PackageLock) : NodeType :=
  ⟨plRootId pl, jsOrStr pl.name "root", jsOrStr pl.version "0.0.0", some .prod, false⟩

/-- Initial state of parsePackageLock: only the root node. -/
def plSt0 (pl : PackageLock) : PLState :=
  { nodes := [plRootNode pl], links := [], pv := [] }

/-- State after the legacy nested shape is processed (guarded by its
emptiness check as in the source). -/
def plStateOld (pl : PackageLock) : PLState :=
  if 0 < pl.dependencies.length then
    processDependenciesOldFormat pl.dependencies (plRootId pl) false (plSt0 pl)
  else plSt0 pl

/-- State of parsePackageLock after the root node is added and both
sub-shapes are processed, the legacy nested shape first and then the
modern flat table, each guarded by its emptiness check. -/
def plState (pl : PackageLock) : PLState :=
  if 0 < pl.packages.length then processPackages (plRootId pl) pl.packages (plStateOld pl)
  else plStateOld pl

/-- The node list parsePackageLock returns: the node map values after
conflict marking. -/
def plNodes (pl : PackageLock) : List NodeType :=
  markConflicts (plState pl).pv (plState pl).nodes

/-- The validated link list of parsePackageLock: keep a link only
when both endpoint ids are ids of returned nodes. -/
def plValidLinks (pl : PackageLock) : List LinkType :=
  let nodeIds := (plNodes pl).map fun n => n.id
  (plState pl).links.filter fun l =>
    nodeIds.contains l.source && nodeIds.contains l.target

/-- parsePackageLock of the source, over an already-parsed document:
build the graph and fail only when the node list is empty. -/
def parsePackageLock (pl : PackageLock) : Except String DependencyGraphData :=
  let nodes := plNodes pl
  let validLinks := plValidLinks pl
  if nodes.length = 0 then
    .error "No dependencies found in the package-lock.json file."
  else .ok ⟨nodes, validLinks⟩

/-- Spec-side rendering of the legacy-shape contract: every visited
entry contributes exactly one edge from its immediate parent, whose
kind is dev when the entry carries the dev flag or any ancestor was
classified dev (the dev status is sticky downward), otherwise peer or
optional from the entry itself, otherwise production; nested entries
are visited below the entry with the sticky dev flag. -/
def specOldEdges : List (String × DepDetails) → String → Bool → List LinkType
  | [], _, _ => []
  | (name, d) :: rest, parentId, ancestorDev =>
    let devHere := ancestorDev || d.dev
    let kind : DepKind :=
      if devHere then .dev else if d.peer then .peer
      else if d.optionalF then .optionalK else .prod
    let nodeId := name ++ "@" ++ jsOrStr d.version "unknown"
    ⟨parentId, nodeId, some kind⟩ ::
      (specOldEdges d.deps nodeId devHere ++ specOldEdges rest parentId ancestorDev)
  termination_by l _ _ => sizeOf l
  decreasing_by
  · have h : sizeOf d.deps < sizeOf d := by
      cases d with
      | mk v a b c ds => simp [DepDetails.deps]
    simp
    omega
  · simp

/-- Node id a flat-table entry materializes. -/
def pkgNodeId (e : String × PkgEntry) : String :=
  (jsSplit "/" e.1).getLastD "" ++ "@" ++ jsOrStr e.2.version "unknown"

/-- Kind a flat-table entry is classified with. -/
def pkgKind (e : String × PkgEntry) : DepKind :=
  kindOf e.2.dev e.2.peer e.2.optionalF

/-- Links one flat-table entry pushes: one per declared dependency,
plus the extra root link when the path has exactly two segments. -/
def pkgNewLinks (rootId : String) (e : String × PkgEntry) : List LinkType :=
  if e.1 = "" then []
  else
    (e.2.dependencies.map fun dv =>
      (⟨pkgNodeId e, dv.1 ++ "@" ++ dv.2, some (pkgKind e)⟩ : LinkType)) ++
    (if (jsSplit "/" e.1).length = 2 then [⟨rootId, pkgNodeId e, some (pkgKind e)⟩] else [])

/-- Whether the tracked index forces the conflict flag for a name. -/
def pvFlag (pv : List (String × List String)) (name : String) : Bool :=
  pv.any fun e => decide (1 < e.2.length) && decide (e.1 = name)

/-- Flag update a node receives from the marking pass. -/
def flagUpd (pv : List (String × List String)) (n : NodeType) : NodeType :=
  { n with hasMultipleVersions := n.hasMultipleVersions || pvFlag pv n.name }

/-! ### parseYarnLock (block-text family) -/

/-- Try the dependency-line regular expression of the source,
`([^\x22]+) \x22([^\x22]+)\x22`, at the start of the character list.
Backtracking analysis: the first group is a non-empty run of
non-quote characters that must be immediately followed by a space and
the first quote, so a match at this position exists exactly when the
maximal non-quote run has length at least two, ends in a space and is
followed by a quote, and the quote is followed by a non-empty
non-quote run and a second quote. -/
def depMatchAt (cs : List Char) : Option (String × String) :=
  let run := cs.takeWhile fun c => c ≠ '"'
  let rest := cs.drop run.length
  if 2 ≤ run.length ∧ run.getLast? = some ' ' ∧ rest.head? = some '"' then
    let rest2 := rest.tail
    let run2 := rest2.takeWhile fun c => c ≠ '"'
    if 1 ≤ run2.length ∧ (rest2.drop run2.length).head? = some '"' then
      some (⟨run.dropLast⟩, ⟨run2⟩)
    else none
  else none

/-- Leftmost match of the dependency-line regular expression: try
every start position from the left, as the JS engine does. -/
def depMatchAux : List Char → Option (String × String)
  | [] => none
  | c :: cs =>
    match depMatchAt (c :: cs) with
    | some r => some r
    | none => depMatchAux cs

/-- JS `line.match(...)` for the dependency-line pattern, returning
the two capture groups. -/
def jsDepMatch (s : String) : Option (String × String) :=
  depMatchAux s.toList

/-- Synthetic root id of the yarn parser. -/
def yarnRootId : String := "root@1.0.0"

/-- The package name a block yields: the part of the trimmed first
line before the first at sign. -/
def yarnBlockName (block : String) : String :=
  jsPrefixBefore '@' (jsTrim ((jsSplit "\n" block).headD ""))

/-- The version a block yields: scanning the lines after the first,
the first trimmed line starting with `version ` gives, after dropping
nine characters, removing every quote and trimming, the version; the
empty string when no such line exists. -/
def yarnBlockVersion : List String → String
  | [] => ""
  | l :: rest =>
    let t := jsTrim l
    if jsStartsWith "version " t then jsTrim (jsRemoveQuotes (jsDrop 9 t))
    else yarnBlockVersion rest

/-- The dependency-section loop of a block: lines after the first are
scanned with an in-section flag; a `dependencies:` line opens the
section, an empty line closes it, and every other line inside the
section that matches the dependency pattern links the current node to
the first node of the map sharing the dependency name, when one
exists.  The node map is not modified by this loop, so it is passed
as a fixed argument and the produced links are returned. -/
def yarnDepLoop (nodes : List NodeType) (nodeId : String) :
    List String → Bool → List LinkType
  | [], _ => []
  | l :: rest, inDeps =>
    let t := jsTrim l
    if t = "dependencies:" then yarnDepLoop nodes nodeId rest true
    else if inDeps ∧ t ≠ "" then
      (match jsDepMatch t with
       | some g =>
         let depName := jsTrim g.1
         let depNodes := nodes.filter fun n => n.name = depName
         match depNodes.head? with
         | some nd => [⟨nodeId, nd.id, none⟩]
         | none => []
       | none => []) ++ yarnDepLoop nodes nodeId rest inDeps
    else if inDeps ∧ t = "" then yarnDepLoop nodes nodeId rest false
    else yarnDepLoop nodes nodeId rest inDeps

/-- Spec-side rendering of the dependency-section contract: every
matched entry of the section is linked to the first already-known
node sharing the dependency name, and no edge is produced when no
such node exists yet. -/
def specYarnDeps (nodes : List NodeType) (nodeId : String) :
    List String → Bool → List LinkType
  | [], _ => []
  | l :: rest, inDeps =>
    let t := jsTrim l
    if t = "dependencies:" then specYarnDeps nodes nodeId rest true
    else if inDeps ∧ t ≠ "" then
      (match jsDepMatch t with
       | some g =>
         match nodes.find? (fun n => n.name = jsTrim g.1) with
         | some nd => [⟨nodeId, nd.id, none⟩]
         | none => []
       | none => []) ++ specYarnDeps nodes nodeId rest inDeps
    else if inDeps ∧ t = "" then specYarnDeps nodes nodeId rest false
    else specYarnDeps nodes nodeId rest inDeps

/-- Body of the block processor once a name and a version have been
extracted: add the node if missing, always push a link from the
synthetic root, then run the dependency-section loop against the
updated node map and append the links it produces. -/
def processBlockCore (st : DependencyGraphData) (block : String) : DependencyGraphData :=
  let currentPackage := yarnBlockName block
  let currentVersion := yarnBlockVersion (jsSplit "\n" block).tail
  let nodeId := currentPackage ++ "@" ++ currentVersion
  let nodes1 := addNodeIfMissing st.nodes ⟨nodeId, currentPackage, currentVersion, none, false⟩
  let links1 := st.links ++ [⟨yarnRootId, nodeId, none⟩]
  let depLinks := yarnDepLoop nodes1 nodeId (jsSplit "\n" block).tail false
  ⟨nodes1, links1 ++ depLinks⟩

/-- Processing of one block of the yarn lockfile: skip blank blocks;
when the first line is non-empty and contains a colon, extract the
package name and the version; when both are non-empty, run the block
body; otherwise leave the state unchanged. -/
def processBlock (st : DependencyGraphData) (block : String) : DependencyGraphData :=
  if jsTrim block = "" then st
  else if (jsSplit "\n" block).headD "" ≠ "" ∧
      jsIncludesChar ':' ((jsSplit "\n" block).headD "") then
    if yarnBlockName block ≠ "" ∧ yarnBlockVersion (jsSplit "\n" block).tail ≠ "" then
      processBlockCore st block
    else st
  else st

/-- The state of parseYarnLock after the synthetic root is added and
every double-newline-separated block is processed. -/
def yarnState (content : String) : DependencyGraphData :=
  (jsSplit "\n\n" content).foldl processBlock
    ⟨[⟨yarnRootId, "root", "1.0.0", none, false⟩], []⟩

/-- The validated link list of parseYarnLock. -/
def yarnValidLinks (content : String) : List LinkType :=
  let nodeIds := (yarnState content).nodes.map fun n => n.id
  (yarnState content).links.filter fun l =>
    nodeIds.contains l.source && nodeIds.contains l.target

/-- parseYarnLock of the source: build the graph from the blocks and
fail when only the root node (or less) is present. -/
def parseYarnLock (content : String) : Except String DependencyGraphData :=
  let st := yarnState content
  let validLinks := yarnValidLinks content
  if st.nodes.length ≤ 1 then
    .error "No dependencies found in the yarn.lock file."
  else .ok ⟨st.nodes, validLinks⟩

/-! ### parseLockfile (entry point) -/

/-- The three recognized format selectors of the legacy call shape. -/
inductive LockfileTypeSel where
  | packageLock
  | yarn
  | pnpm
  deriving DecidableEq, Repr

/-- The content handed to parseLockfile, seen through the two lenses
the parsers use: the result of JSON.parse when the content is valid
JSON (none when JSON.parse throws), and the raw text. -/
structure LockContent where
  asJson : Option PackageLock
  raw : String

/-- Error message of the unsupported-format branch after the catch
wrapper of parseLockfile (the source interpolates the selector into
the message; only pnpm reaches this branch). -/
def unsupportedMsg : String :=
  "Failed to parse lockfile: Lockfile type pnpm not supported yet"

/-- parseLockfile of the source: dispatch on the selector, parse, and
wrap any raised error message with the catch-block prefix.  The
message of a JSON.parse failure is modelled by a fixed string. -/
def parseLockfile (c : LockContent) (t : LockfileTypeSel) :
    Except String DependencyGraphData :=
  let r : Except String DependencyGraphData :=
    match t with
    | .packageLock =>
      match c.asJson with
      | some pl => parsePackageLock pl
      | none => .error "Unexpected token in JSON"
    | .yarn => parseYarnLock c.raw
    | .pnpm => .error "Lockfile type pnpm not supported yet"
  match r with
  | .ok g => .ok g
  | .error e => .error ("Failed to parse lockfile: " ++ e)

/-- Whether a parse result is the unsupported-format failure. -/
def isUnsupportedErr (r : Except String DependencyGraphData) : Bool :=
  match r with
  | .error e => e = unsupportedMsg
  | .ok _ => false

/-! ### Concrete documents used by witnesses and counterexamples -/

/-- Empty package-lock document: no name, no version, no entries. -/
def plEmptyDoc : PackageLock := {}

/-- Flat-table entry for package a with two declared dependencies,
one resolvable (b at its resolved version) and one a range string. -/
def entryA : PkgEntry :=
  { version := some "1.0.0", dependencies := [("b", "2.0.0"), ("c", "^3.0.0")] }

/-- Flat-table entry for package b. -/
def entryB : PkgEntry := { version := some "2.0.0" }

/-- Modern-shape document with two direct dependencies. -/
def plW : PackageLock :=
  { name := some "app", version := some "1.0.0",
    packages := [("node_modules/a", entryA), ("node_modules/b", entryB)], dependencies := [] }

/-- Graph parsePackageLock returns for plW. -/
def gW : DependencyGraphData :=
  ⟨[⟨"app@1.0.0", "app", "1.0.0", some .prod, false⟩,
    ⟨"a@1.0.0", "a", "1.0.0", some .prod, false⟩,
    ⟨"b@2.0.0", "b", "2.0.0", some .prod, false⟩],
   [⟨"a@1.0.0", "b@2.0.0", some .prod⟩,
    ⟨"app@1.0.0", "a@1.0.0", some .prod⟩,
    ⟨"app@1.0.0", "b@2.0.0", some .prod⟩]⟩

/-- A link of gW, from the root entry to package a. -/
def lW : LinkType := ⟨"app@1.0.0", "a@1.0.0", some .prod⟩

/-- The root node of gW. -/
def nRootW : NodeType := ⟨"app@1.0.0", "app", "1.0.0", some .prod, false⟩

/-- Entries for package x in two distinct versions. -/
def entryX1 : PkgEntry := { version := some "1.0.0" }

/-- Second entry for package x, nested below package a. -/
def entryX2 : PkgEntry := { version := some "2.0.0" }

/-- Modern-shape document carrying a version conflict on x. -/
def plW3 : PackageLock :=
  { name := some "app", version := some "1.0.0",
    packages := [("node_modules/x", entryX1), ("node_modules/a/node_modules/x", entryX2)],
    dependencies := [] }

/-- Graph parsePackageLock returns for plW3: both x nodes flagged. -/
def gW3 : DependencyGraphData :=
  ⟨[⟨"app@1.0.0", "app", "1.0.0", some .prod, false⟩,
    ⟨"x@1.0.0", "x", "1.0.0", some .prod, true⟩,
    ⟨"x@2.0.0", "x", "2.0.0", some .prod, true⟩],
   [⟨"app@1.0.0", "x@1.0.0", some .prod⟩]⟩

/-- The flagged x node of gW3. -/
def nX1 : NodeType := ⟨"x@1.0.0", "x", "1.0.0", some .prod, true⟩

/-- Flat-table entry of a scoped package. -/
def entryScoped : PkgEntry := { version := some "1.0.0" }

/-- Modern-shape document whose only entry is a scoped direct child
of the root: its path carries exactly one node_modules segment. -/
def plScoped : PackageLock :=
  { name := some "app", version := some "1.0.0",
    packages := [("node_modules/@scope/pkg", entryScoped)], dependencies := [] }

/-- Graph parsePackageLock returns for plScoped: no links at all. -/
def gScoped : DependencyGraphData :=
  ⟨[⟨"app@1.0.0", "app", "1.0.0", some .prod, false⟩,
    ⟨"pkg@1.0.0", "pkg", "1.0.0", some .prod, false⟩], []⟩

/-- Yarn document with the same package in two distinct versions. -/
def yConf : String :=
  "foo@^1.0.0:\n  version \"1.0.0\"\n\nfoo@^2.0.0:\n  version \"2.0.0\""

/-- Graph parseYarnLock returns for yConf: no conflict flag is set. -/
def gYConf : DependencyGraphData :=
  ⟨[⟨"root@1.0.0", "root", "1.0.0", none, false⟩,
    ⟨"foo@1.0.0", "foo", "1.0.0", none, false⟩,
    ⟨"foo@2.0.0", "foo", "2.0.0", none, false⟩],
   [⟨"root@1.0.0", "foo@1.0.0", none⟩, ⟨"root@1.0.0", "foo@2.0.0", none⟩]⟩

/-- Yarn state holding the synthetic root and an already-known foo. -/
def stW6 : DependencyGraphData :=
  ⟨[⟨"root@1.0.0", "root", "1.0.0", none, false⟩,
    ⟨"foo@1.2.3", "foo", "1.2.3", none, false⟩], []⟩

/-- Yarn block for bar with a dependency section naming foo. -/
def blockW6 : String :=
  "bar@^2.0.0:\n  version \"2.0.0\"\n  dependencies:\n    foo \"^1.0.0\""

/-- Yarn state holding only the synthetic root. -/
def stW10 : DependencyGraphData :=
  ⟨[⟨"root@1.0.0", "root", "1.0.0", none, false⟩], []⟩

/-- Yarn block of a scoped package: its first line starts with the at
sign. -/
def blockW10 : String := "@scope/name@^1.0.0:\n  version \"1.0.0\""

/-! ### Helper lemmas -/

/-- Size of the nested dependencies is below the size of the entry,
for the termination of the recursive walk. -/
theorem DepDetails.sizeOf_deps_lt (d : DepDetails) : sizeOf d.deps < sizeOf d := by
  cases d with
  | mk v a b c ds => simp [DepDetails.deps]

/-- A block either leaves the state unchanged or runs the block body. -/
theorem processBlock_cases (st : DependencyGraphData) (block : String) :
    processBlock st block = st ∨ processBlock st block = processBlockCore st block := by
  unfold processBlock
  by_cases h1 : jsTrim block = ""
  · left; rw [if_pos h1]
  · rw [if_neg h1]
    by_cases h2 : (jsSplit "\n" block).headD "" ≠ "" ∧
        jsIncludesChar ':' ((jsSplit "\n" block).headD "")
    · rw [if_pos h2]
      by_cases h3 : yarnBlockName block ≠ "" ∧ yarnBlockVersion (jsSplit "\n" block).tail ≠ ""
      · right; rw [if_pos h3]
      · left; rw [if_neg h3]
    · left; rw [if_neg h2]

/-- Evaluation of the block processor when the guards hold. -/
theorem processBlock_eq_core (st : DependencyGraphData) (block : String)
    (h1 : jsTrim block ≠ "")
    (h2 : (jsSplit "\n" block).headD "" ≠ "" ∧
      jsIncludesChar ':' ((jsSplit "\n" block).headD ""))
    (h3 : yarnBlockName block ≠ "" ∧ yarnBlockVersion (jsSplit "\n" block).tail ≠ "") :
    processBlock st block = processBlockCore st block := by
  unfold processBlock
  rw [if_neg h1, if_pos h2, if_pos h3]

/-- The two components of the block body, spelled out. -/
theorem processBlockCore_eq (st : DependencyGraphData) (block : String) :
    processBlockCore st block =
      ⟨addNodeIfMissing st.nodes
          ⟨yarnBlockName block ++ "@" ++ yarnBlockVersion (jsSplit "\n" block).tail,
            yarnBlockName block, yarnBlockVersion (jsSplit "\n" block).tail, none, false⟩,
        st.links ++
          ⟨yarnRootId,
            yarnBlockName block ++ "@" ++ yarnBlockVersion (jsSplit "\n" block).tail, none⟩ ::
          yarnDepLoop
            (addNodeIfMissing st.nodes
              ⟨yarnBlockName block ++ "@" ++ yarnBlockVersion (jsSplit "\n" block).tail,
                yarnBlockName block, yarnBlockVersion (jsSplit "\n" block).tail, none, false⟩)
            (yarnBlockName block ++ "@" ++ yarnBlockVersion (jsSplit "\n" block).tail)
            (jsSplit "\n" block).tail false⟩ := by
  unfold processBlockCore
  simp

/-! ### Helper lemmas about the node map -/

theorem mem_of_mem_addNodeIfMissing {ns : List NodeType} {n m : NodeType}
    (h : m ∈ addNodeIfMissing ns n) : m ∈ ns ∨ m = n := by
  unfold addNodeIfMissing at h
  split at h
  · exact .inl h
  · simpa using h

theorem addNodeIfMissing_mem {ns : List NodeType} {m : NodeType} (n : NodeType)
    (h : m ∈ ns) : m ∈ addNodeIfMissing ns n := by
  unfold addNodeIfMissing
  split
  · exact h
  · simp [h]

theorem exists_id_addNodeIfMissing (ns : List NodeType) (n : NodeType) :
    ∃ m ∈ addNodeIfMissing ns n, m.id = n.id := by
  unfold addNodeIfMissing
  split
  · rename_i h
    obtain ⟨m, hm, he⟩ := List.any_eq_true.mp h
    exact ⟨m, hm, by simpa using he⟩
  · exact ⟨n, by simp, rfl⟩

/-! ### Helper lemmas about processDependenciesOldFormat -/

/-- Induction principle for the nested dependency lists: a property
of dependency lists holds everywhere once it holds for the empty list
and is preserved when an entry with already-covered nested
dependencies is consed onto a covered rest. -/
theorem oldRec (motive : List (String × DepDetails) → Prop)
    (h0 : motive [])
    (h1 : ∀ (name : String) (d : DepDetails) (rest : List (String × DepDetails)),
      motive d.deps → motive rest → motive ((name, d) :: rest)) :
    ∀ deps, motive deps := by
  have H : ∀ (k : Nat) (deps : List (String × DepDetails)), sizeOf deps ≤ k → motive deps := by
    intro k
    induction k with
    | zero =>
      intro deps h
      cases deps with
      | nil => exact h0
      | cons e rest => simp at h
    | succ k ih =>
      intro deps h
      cases deps with
      | nil => exact h0
      | cons e rest =>
        cases e with
        | mk name d =>
          have hd := DepDetails.sizeOf_deps_lt d
          simp at h
          exact h1 name d rest (ih d.deps (by omega)) (ih rest (by omega))
  exact fun deps => H (sizeOf deps) deps le_rfl

theorem old_nodes_mono {m : NodeType} :
    ∀ (deps : List (String × DepDetails)) (parentId : String) (isDev : Bool) (st : PLState),
      m ∈ st.nodes → m ∈ (processDependenciesOldFormat deps parentId isDev st).nodes := by
  refine oldRec
    (fun deps => ∀ parentId isDev st,
      m ∈ st.nodes → m ∈ (processDependenciesOldFormat deps parentId isDev st).nodes) ?_ ?_
  · intro parentId isDev st h
    simpa [processDependenciesOldFormat] using h
  · intro name d rest ih1 ih2 parentId isDev st h
    rw [processDependenciesOldFormat]
    exact ih2 _ _ _ (ih1 _ _ _ (addNodeIfMissing_mem _ h))

/-- Preservation of a node predicate by the legacy walk, provided the
predicate holds for every node the walk can create. -/
theorem old_nodes_pred (P : NodeType → Prop)
    (hC : ∀ name version ty, P ⟨name ++ "@" ++ version, name, version, some ty, false⟩) :
    ∀ (deps : List (String × DepDetails)) (parentId : String) (isDev : Bool) (st : PLState),
      (∀ n ∈ st.nodes, P n) →
      ∀ n ∈ (processDependenciesOldFormat deps parentId isDev st).nodes, P n := by
  refine oldRec
    (fun deps => ∀ parentId isDev st, (∀ n ∈ st.nodes, P n) →
      ∀ n ∈ (processDependenciesOldFormat deps parentId isDev st).nodes, P n) ?_ ?_
  · intro parentId isDev st h
    simpa [processDependenciesOldFormat] using h
  · intro name d rest ih1 ih2 parentId isDev st h
    rw [processDependenciesOldFormat]
    refine ih2 _ _ _ (ih1 _ _ _ ?_)
    intro n hn
    rcases mem_of_mem_addNodeIfMissing hn with h1 | h1
    · exact h n h1
    · subst h1; exact hC _ _ _

theorem old_links_spec :
    ∀ (deps : List (String × DepDetails)) (parentId : String) (isDev : Bool) (st : PLState),
      (processDependenciesOldFormat deps parentId isDev st).links =
        st.links ++ specOldEdges deps parentId isDev := by
  refine oldRec
    (fun deps => ∀ parentId isDev st,
      (processDependenciesOldFormat deps parentId isDev st).links =
        st.links ++ specOldEdges deps parentId isDev) ?_ ?_
  · intro parentId isDev st
    simp [processDependenciesOldFormat, specOldEdges]
  · intro name d rest ih1 ih2 parentId isDev st
    rw [processDependenciesOldFormat, specOldEdges]
    rw [ih2, ih1]
    simp [kindOf]

/-! ### Helper lemmas about the flat packages table -/

theorem processPkgEntry_links (rootId : String) (st : PLState) (e : String × PkgEntry) :
    (processPkgEntry rootId st e).links = st.links ++ pkgNewLinks rootId e := by
  unfold processPkgEntry pkgNewLinks pkgNodeId pkgKind
  by_cases he : e.1 = ""
  · simp [he]
  · by_cases hp : (jsSplit "/" e.1).length = 2 <;> simp [he, hp]

theorem processPkgEntry_nodes_mono {m : NodeType} (rootId : String) (st : PLState)
    (e : String × PkgEntry) (h : m ∈ st.nodes) : m ∈ (processPkgEntry rootId st e).nodes := by
  unfold processPkgEntry
  by_cases he : e.1 = ""
  · simpa [he] using h
  · by_cases hp : (jsSplit "/" e.1).length = 2 <;>
      simpa [he, hp] using addNodeIfMissing_mem _ h

theorem processPkgEntry_exists_id (rootId : String) (st : PLState) (e : String × PkgEntry)
    (he : e.1 ≠ "") : ∃ n ∈ (processPkgEntry rootId st e).nodes, n.id = pkgNodeId e := by
  unfold processPkgEntry pkgNodeId
  by_cases hp : (jsSplit "/" e.1).length = 2 <;>
    simpa [he, hp] using exists_id_addNodeIfMissing st.nodes
      ⟨(jsSplit "/" e.1).getLastD "" ++ "@" ++ jsOrStr e.2.version "unknown",
        (jsSplit "/" e.1).getLastD "", jsOrStr e.2.version "unknown",
        some (kindOf e.2.dev e.2.peer e.2.optionalF), false⟩

theorem processPkgEntry_nodes_pred (P : NodeType → Prop)
    (hC : ∀ name version ty, P ⟨name ++ "@" ++ version, name, version, some ty, false⟩)
    (rootId : String) (st : PLState) (e : String × PkgEntry)
    (h : ∀ n ∈ st.nodes, P n) : ∀ n ∈ (processPkgEntry rootId st e).nodes, P n := by
  unfold processPkgEntry
  have key : ∀ n ∈ addNodeIfMissing st.nodes
      ⟨(jsSplit "/" e.1).getLastD "" ++ "@" ++ jsOrStr e.2.version "unknown",
        (jsSplit "/" e.1).getLastD "", jsOrStr e.2.version "unknown",
        some (kindOf e.2.dev e.2.peer e.2.optionalF), false⟩, P n := by
    intro n hn
    rcases mem_of_mem_addNodeIfMissing hn with h1 | h1
    · exact h n h1
    · subst h1; exact hC _ _ _
  by_cases he : e.1 = ""
  · simpa [he] using h
  · by_cases hp : (jsSplit "/" e.1).length = 2 <;> simpa [he, hp] using key

theorem processPackages_links (rootId : String) (entries : List (String × PkgEntry))
    (st : PLState) :
    (processPackages rootId entries st).links =
      st.links ++ (entries.map (pkgNewLinks rootId)).flatten := by
  induction entries generalizing st with
  | nil => simp [processPackages]
  | cons e es ih =>
    show (processPackages rootId es (processPkgEntry rootId st e)).links = _
    rw [ih, processPkgEntry_links]
    simp

theorem processPackages_nodes_mono {m : NodeType} (rootId : String)
    (entries : List (String × PkgEntry)) (st : PLState)
    (h : m ∈ st.nodes) : m ∈ (processPackages rootId entries st).nodes := by
  induction entries generalizing st with
  | nil => exact h
  | cons e es ih =>
    exact ih _ (processPkgEntry_nodes_mono rootId st e h)

theorem processPackages_exists_id (rootId : String) {entries : List (String × PkgEntry)}
    {e : String × PkgEntry} (st : PLState) (he : e ∈ entries) (hne : e.1 ≠ "") :
    ∃ n ∈ (processPackages rootId entries st).nodes, n.id = pkgNodeId e := by
  induction entries generalizing st with
  | nil => cases he
  | cons e0 es ih =>
    rcases List.mem_cons.mp he with h1 | h1
    · subst h1
      obtain ⟨n, hn, hid⟩ := processPkgEntry_exists_id rootId st e hne
      exact ⟨n, processPackages_nodes_mono rootId es _ hn, hid⟩
    · exact ih _ h1

theorem processPackages_nodes_pred (P : NodeType → Prop)
    (hC : ∀ name version ty, P ⟨name ++ "@" ++ version, name, version, some ty, false⟩)
    (rootId : String) (entries : List (String × PkgEntry)) (st : PLState)
    (h : ∀ n ∈ st.nodes, P n) : ∀ n ∈ (processPackages rootId entries st).nodes, P n := by
  induction entries generalizing st with
  | nil => exact h
  | cons e es ih =>
    exact ih _ (processPkgEntry_nodes_pred P hC rootId st e h)

/-! ### Helper lemmas about conflict marking -/

theorem map_self_of_fix {α : Type} {f : α → α} {l : List α}
    (h : ∀ a ∈ l, f a = a) : l.map f = l := by
  induction l with
  | nil => rfl
  | cons a l ih =>
    rw [List.map_cons, h a (by simp), ih fun b hb => h b (by simp [hb])]

theorem markConflicts_eq (pv : List (String × List String)) (ns : List NodeType) :
    markConflicts pv ns = ns.map (flagUpd pv) := by
  induction pv generalizing ns with
  | nil =>
    have h : ∀ n ∈ ns, flagUpd [] n = n := by
      intro n _
      simp [flagUpd, pvFlag]
    rw [map_self_of_fix h]
    rfl
  | cons e pv ih =>
    show markConflicts pv (if 1 < e.2.length then _ else ns) = _
    by_cases h : 1 < e.2.length
    · rw [if_pos h, ih, List.map_map]
      refine List.map_congr_left ?_
      intro n _
      by_cases hn : e.1 = n.name
      · simp [flagUpd, pvFlag, Function.comp, hn, h]
      · have hn2 : ¬n.name = e.1 := fun hh => hn hh.symm
        simp [flagUpd, pvFlag, Function.comp, hn, hn2, h]
    · rw [if_neg h, ih]
      refine List.map_congr_left ?_
      intro n _
      simp [flagUpd, pvFlag, h]

/-! ### Helper lemmas about the parsePackageLock pipeline -/

theorem plStateOld_root_mem (pl : PackageLock) : plRootNode pl ∈ (plStateOld pl).nodes := by
  unfold plStateOld
  have h0 : plRootNode pl ∈ (plSt0 pl).nodes := by simp [plSt0]
  split
  · exact old_nodes_mono _ _ _ _ h0
  · exact h0

theorem plState_root_mem (pl : PackageLock) : plRootNode pl ∈ (plState pl).nodes := by
  unfold plState
  split
  · exact processPackages_nodes_mono _ _ _ (plStateOld_root_mem pl)
  · exact plStateOld_root_mem pl

theorem plState_nodes_pred (P : NodeType → Prop)
    (hC : ∀ name version ty, P ⟨name ++ "@" ++ version, name, version, some ty, false⟩)
    (pl : PackageLock) : ∀ n ∈ (plState pl).nodes, P n := by
  have h0 : ∀ n ∈ (plSt0 pl).nodes, P n := by
    intro n hn
    simp [plSt0] at hn
    subst hn
    exact hC _ _ _
  have h1 : ∀ n ∈ (plStateOld pl).nodes, P n := by
    unfold plStateOld
    split
    · exact old_nodes_pred P hC _ _ _ _ h0
    · exact h0
  unfold plState
  split
  · exact processPackages_nodes_pred P hC _ _ _ h1
  · exact h1

theorem plState_links_mem {pl : PackageLock} {e : String × PkgEntry} {l : LinkType}
    (he : e ∈ pl.packages) (hl : l ∈ pkgNewLinks (plRootId pl) e) :
    l ∈ (plState pl).links := by
  have hp : 0 < pl.packages.length := List.length_pos.mpr (List.ne_nil_of_mem he)
  unfold plState
  rw [if_pos hp, processPackages_links]
  refine List.mem_append_right _ ?_
  exact List.mem_flatten.mpr ⟨pkgNewLinks (plRootId pl) e, List.mem_map_of_mem _ he, hl⟩

theorem plState_exists_nodeId {pl : PackageLock} {e : String × PkgEntry}
    (he : e ∈ pl.packages) (hne : e.1 ≠ "") :
    ∃ n ∈ (plState pl).nodes, n.id = pkgNodeId e := by
  have hp : 0 < pl.packages.length := List.length_pos.mpr (List.ne_nil_of_mem he)
  unfold plState
  rw [if_pos hp]
  exact processPackages_exists_id _ _ he hne

theorem plNodes_eq (pl : PackageLock) :
    plNodes pl = ((plState pl).nodes).map (flagUpd (plState pl).pv) :=
  markConflicts_eq _ _

theorem plNodes_ne_nil (pl : PackageLock) : plNodes pl ≠ [] := by
  rw [plNodes_eq]
  intro h
  have := plState_root_mem pl
  rw [List.map_eq_nil_iff] at h
  rw [h] at this
  cases this

theorem parsePackageLock_eq (pl : PackageLock) :
    parsePackageLock pl = .ok ⟨plNodes pl, plValidLinks pl⟩ := by
  unfold parsePackageLock
  rw [if_neg]
  simpa [List.length_eq_zero] using plNodes_ne_nil pl

theorem exists_id_plNodes_iff (pl : PackageLock) (x : String) :
    (∃ n ∈ plNodes pl, n.id = x) ↔ ∃ n ∈ (plState pl).nodes, n.id = x := by
  rw [plNodes_eq]
  constructor
  · rintro ⟨n, hn, hx⟩
    rw [List.mem_map] at hn
    obtain ⟨m, hm, he⟩ := hn
    exact ⟨m, hm, by subst he; exact hx⟩
  · rintro ⟨m, hm, hx⟩
    exact ⟨flagUpd (plState pl).pv m, List.mem_map_of_mem _ hm, hx⟩

theorem contains_ids_iff (ns : List NodeType) (y : String) :
    ((ns.map fun n => n.id).contains y = true) ↔ ∃ n ∈ ns, n.id = y := by
  constructor
  · intro h
    have h2 : y ∈ ns.map fun n => n.id := by simpa [List.elem_iff] using h
    rw [List.mem_map] at h2
    obtain ⟨n, hn, he⟩ := h2
    exact ⟨n, hn, he⟩
  · rintro ⟨n, hn, he⟩
    have h2 : y ∈ ns.map fun n => n.id := List.mem_map.mpr ⟨n, hn, he⟩
    simpa [List.elem_iff] using h2

theorem mem_plValidLinks_iff (pl : PackageLock) (l : LinkType) :
    l ∈ plValidLinks pl ↔
      l ∈ (plState pl).links ∧ (∃ n ∈ plNodes pl, n.id = l.source) ∧
        ∃ n ∈ plNodes pl, n.id = l.target := by
  unfold plValidLinks
  rw [List.mem_filter, Bool.and_eq_true, contains_ids_iff, contains_ids_iff]

/-! ### Helper lemmas about the yarn parser -/

theorem processBlock_nodes_mono {m : NodeType} (st : DependencyGraphData) (block : String)
    (h : m ∈ st.nodes) : m ∈ (processBlock st block).nodes := by
  rcases processBlock_cases st block with he | he <;> rw [he]
  · exact h
  · rw [processBlockCore_eq]
    exact addNodeIfMissing_mem _ h

theorem processBlock_nodes_pred (P : NodeType → Prop)
    (hC : ∀ name version, P ⟨name ++ "@" ++ version, name, version, none, false⟩)
    (st : DependencyGraphData) (block : String)
    (h : ∀ n ∈ st.nodes, P n) : ∀ n ∈ (processBlock st block).nodes, P n := by
  rcases processBlock_cases st block with he | he <;> rw [he]
  · exact h
  · rw [processBlockCore_eq]
    intro n hn
    rcases mem_of_mem_addNodeIfMissing hn with h1 | h1
    · exact h n h1
    · subst h1; exact hC _ _

theorem yarnState_nodes_pred (P : NodeType → Prop)
    (hC : ∀ name version, P ⟨name ++ "@" ++ version, name, version, none, false⟩)
    (hR : P ⟨"root@1.0.0", "root", "1.0.0", none, false⟩)
    (content : String) : ∀ n ∈ (yarnState content).nodes, P n := by
  have key : ∀ (blocks : List String) (st : DependencyGraphData),
      (∀ n ∈ st.nodes, P n) → ∀ n ∈ (blocks.foldl processBlock st).nodes, P n := by
    intro blocks
    induction blocks with
    | nil => intro st h; exact h
    | cons b bs ih =>
      intro st h
      exact ih _ (processBlock_nodes_pred P hC st b h)
  refine key _ _ ?_
  intro n hn
  simp [yarnRootId] at hn
  subst hn
  exact hR

theorem parseYarnLock_ok_inv {content : String} {g : DependencyGraphData}
    (h : parseYarnLock content = .ok g) :
    1 < (yarnState content).nodes.length ∧
      g = ⟨(yarnState content).nodes, yarnValidLinks content⟩ := by
  unfold parseYarnLock at h
  by_cases h1 : (yarnState content).nodes.length ≤ 1
  · rw [if_pos h1] at h
    cases h
  · rw [if_neg h1] at h
    cases h
    exact ⟨by omega, rfl⟩

theorem parseYarnLock_err_of_le {content : String}
    (h : (yarnState content).nodes.length ≤ 1) :
    parseYarnLock content = .error "No dependencies found in the yarn.lock file." := by
  unfold parseYarnLock
  rw [if_pos h]

theorem mem_yarnValidLinks_iff (content : String) (l : LinkType) :
    l ∈ yarnValidLinks content ↔
      l ∈ (yarnState content).links ∧
        (∃ n ∈ (yarnState content).nodes, n.id = l.source) ∧
        ∃ n ∈ (yarnState content).nodes, n.id = l.target := by
  unfold yarnValidLinks
  rw [List.mem_filter, Bool.and_eq_true, contains_ids_iff, contains_ids_iff]

/-! ### The dependency-resolution contract of the yarn parser -/

theorem filter_head_eq_find {α : Type} (p : α → Bool) (l : List α) :
    (l.filter p).head? = l.find? p := by
  induction l with
  | nil => rfl
  | cons a l ih =>
    by_cases h : p a <;> simp [List.filter_cons, List.find?_cons, h, ih]

theorem yarnDepLoop_eq_spec (nodes : List NodeType) (nodeId : String) :
    ∀ (lines : List String) (inDeps : Bool),
      yarnDepLoop nodes nodeId lines inDeps = specYarnDeps nodes nodeId lines inDeps := by
  intro lines
  induction lines with
  | nil => intro inDeps; rfl
  | cons l rest ih =>
    intro inDeps
    rw [yarnDepLoop, specYarnDeps]
    by_cases h1 : jsTrim l = "dependencies:"
    · simp only [if_pos h1]
      exact ih true
    · simp only [if_neg h1]
      by_cases h2 : inDeps = true ∧ jsTrim l ≠ ""
      · simp only [if_pos h2]
        cases hm : jsDepMatch (jsTrim l) with
        | none => simp [ih inDeps]
        | some g =>
          simp [filter_head_eq_find, ih inDeps]
      · simp only [if_neg h2]
        by_cases h3 : inDeps = true ∧ jsTrim l = ""
        · simp only [if_pos h3]
          exact ih false
        · simp only [if_neg h3]
          exact ih inDeps

/-! ### Miscellaneous small lemmas -/

theorem jsPrefixBefore_at_of_startsWith {s : String}
    (h : jsStartsWith "@" s = true) : jsPrefixBefore '@' s = "" := by
  unfold jsStartsWith at h
  have ha : "@".toList = ['@'] := rfl
  rw [ha] at h
  unfold jsPrefixBefore
  cases hs : s.toList with
  | nil => rw [hs] at h; simp [List.isPrefixOf] at h
  | cons c cs =>
    rw [hs] at h
    have hc : c = '@' := by
      simp [List.isPrefixOf] at h
      exact h.symm
    subst hc
    have h1 : ('@' :: cs).contains '@' = true := by simp
    rw [if_pos h1]
    have h2 : List.takeWhile (fun d => decide (d ≠ '@')) ('@' :: cs) = [] := by
      simp [List.takeWhile_cons]
    rw [h2]

theorem parseYarnLock_error_shape (content : String) :
    parseYarnLock content = .error "No dependencies found in the yarn.lock file." ∨
      ∃ g, parseYarnLock content = .ok g := by
  unfold parseYarnLock
  by_cases h : (yarnState content).nodes.length ≤ 1
  · left; rw [if_pos h]
  · right; exact ⟨_, by rw [if_neg h]⟩

theorem flagUpd_fields (pv : List (String × List String)) (n : NodeType) :
    (flagUpd pv n).id = n.id ∧ (flagUpd pv n).name = n.name ∧
      (flagUpd pv n).version = n.version :=
  ⟨rfl, rfl, rfl⟩

/-! ### The claims -/

/-- C5: in the legacy nested shape, the links produced by the walk
beyond those already accumulated are exactly the spec-side edges:
every visited entry creates exactly one edge from its immediate
parent; the edge kind is dev exactly when the entry carries the dev
flag or an ancestor was classified dev (dev is sticky downward),
while peer and optional are read from the entry itself, with
precedence dev, peer, optional, production. -/
theorem claim_C5_old_format_classification :
    ∀ (deps : List (String × DepDetails)) (parentId : String) (isDev : Bool) (st : PLState),
      (processDependenciesOldFormat deps parentId isDev st).links =
        st.links ++ specOldEdges deps parentId isDev :=
  old_links_spec

/-- C8: in every successful parse of either family, both endpoint ids
of every returned link are ids of returned nodes: dangling edges do
not survive the validation filter. -/
theorem claim_C8_no_dangling_edges :
    (∀ (pl : PackageLock) (g : DependencyGraphData), parsePackageLock pl = .ok g →
      ∀ l ∈ g.links,
        (∃ n ∈ g.nodes, n.id = l.source) ∧ ∃ n ∈ g.nodes, n.id = l.target) ∧
    (∀ (content : String) (g : DependencyGraphData), parseYarnLock content = .ok g →
      ∀ l ∈ g.links,
        (∃ n ∈ g.nodes, n.id = l.source) ∧ ∃ n ∈ g.nodes, n.id = l.target) := by
  constructor
  · intro pl g hok l hl
    have hg : g = ⟨plNodes pl, plValidLinks pl⟩ := by
      rw [parsePackageLock_eq pl] at hok
      exact (Except.ok.inj hok).symm
    subst hg
    have h := (mem_plValidLinks_iff pl l).mp hl
    exact ⟨h.2.1, h.2.2⟩
  · intro content g hok l hl
    obtain ⟨hlen, hg⟩ := parseYarnLock_ok_inv hok
    subst hg
    have h := (mem_yarnValidLinks_iff content l).mp hl
    exact ⟨h.2.1, h.2.2⟩

/-- Witness for C8 at a concrete modern-shape document. -/
theorem claim_C8_witness :
    parsePackageLock plW = .ok gW ∧ lW ∈ gW.links ∧
      ((∃ n ∈ gW.nodes, n.id = lW.source) ∧ ∃ n ∈ gW.nodes, n.id = lW.target) :=
  ⟨rfl, by decide, claim_C8_no_dangling_edges.1 plW gW rfl lW (by decide)⟩

/-- C9: in every successful parse of either family, every node id is
the concatenation of the node name, one at sign and the node version,
the root node and unknown-sentinel nodes included. -/
theorem claim_C9_id_shape :
    (∀ (pl : PackageLock) (g : DependencyGraphData), parsePackageLock pl = .ok g →
      ∀ n ∈ g.nodes, n.id = n.name ++ "@" ++ n.version) ∧
    (∀ (content : String) (g : DependencyGraphData), parseYarnLock content = .ok g →
      ∀ n ∈ g.nodes, n.id = n.name ++ "@" ++ n.version) := by
  constructor
  · intro pl g hok n hn
    have hg : g = ⟨plNodes pl, plValidLinks pl⟩ := by
      rw [parsePackageLock_eq pl] at hok
      exact (Except.ok.inj hok).symm
    subst hg
    rw [plNodes_eq] at hn
    simp only [List.mem_map] at hn
    obtain ⟨m, hm, rfl⟩ := hn
    exact plState_nodes_pred (fun k => k.id = k.name ++ "@" ++ k.version)
      (fun a b c => rfl) pl m hm
  · intro content g hok n hn
    obtain ⟨hlen, hg⟩ := parseYarnLock_ok_inv hok
    subst hg
    exact yarnState_nodes_pred (fun k => k.id = k.name ++ "@" ++ k.version)
      (fun a b => rfl) (by decide) content n hn

/-- Witness for C9 at a concrete modern-shape document. -/
theorem claim_C9_witness :
    parsePackageLock plW = .ok gW ∧ nRootW ∈ gW.nodes ∧
      nRootW.id = nRootW.name ++ "@" ++ nRootW.version :=
  ⟨rfl, by decide, claim_C9_id_shape.1 plW gW rfl nRootW (by decide)⟩

/-- C10: a yarn block whose first line begins with the at sign (a
scoped package) yields the empty package name, so the block creates
no node and no links: scoped packages are silently omitted. -/
theorem claim_C10_scoped_blocks (st : DependencyGraphData) (block : String)
    (h : jsStartsWith "@" (jsTrim ((jsSplit "\n" block).headD "")) = true) :
    yarnBlockName block = "" ∧ processBlock st block = st := by
  have hname : yarnBlockName block = "" := jsPrefixBefore_at_of_startsWith h
  refine ⟨hname, ?_⟩
  unfold processBlock
  by_cases h1 : jsTrim block = ""
  · rw [if_pos h1]
  · rw [if_neg h1]
    by_cases h2 : (jsSplit "\n" block).headD "" ≠ "" ∧
        jsIncludesChar ':' ((jsSplit "\n" block).headD "")
    · rw [if_pos h2, if_neg]
      intro hcon
      exact hcon.1 hname
    · rw [if_neg h2]

/-- Witness for C10 at a concrete scoped block. -/
theorem claim_C10_witness :
    jsStartsWith "@" (jsTrim ((jsSplit "\n" blockW10).headD "")) = true ∧
      (yarnBlockName blockW10 = "" ∧ processBlock stW10 blockW10 = stW10) :=
  ⟨by decide, claim_C10_scoped_blocks stW10 blockW10 (by decide)⟩

/-- C1, counterexample to the claim as stated: an empty JSON-table
document (no dependencies, no packages) parses successfully to a
root-only graph instead of raising the no-dependencies failure,
because the emptiness check of the JSON parser tests for an empty
node set and the root node is always present. -/
theorem claim_C1_counterexample :
    parseLockfile ⟨some plEmptyDoc, ""⟩ .packageLock =
      .ok ⟨[⟨"root@0.0.0", "root", "0.0.0", some .prod, false⟩], []⟩ := rfl

/-- C1 as amended: the block-text parser raises the no-dependencies
failure exactly when at most the root node is present, and every
success of it carries more than the root node; the JSON-table parser
never raises it: the parse always succeeds, since the root node keeps
the node set non-empty. -/
theorem claim_C1_amended :
    (∀ pl : PackageLock, parsePackageLock pl = .ok ⟨plNodes pl, plValidLinks pl⟩) ∧
    (∀ (content : String) (g : DependencyGraphData), parseYarnLock content = .ok g →
      1 < g.nodes.length) ∧
    (∀ content : String, (yarnState content).nodes.length ≤ 1 →
      parseYarnLock content = .error "No dependencies found in the yarn.lock file.") := by
  refine ⟨parsePackageLock_eq, ?_, fun content h => parseYarnLock_err_of_le h⟩
  intro content g hok
  obtain ⟨hlen, hg⟩ := parseYarnLock_ok_inv hok
  subst hg
  exact hlen

/-- Witness for C1 at the empty yarn document. -/
theorem claim_C1_witness :
    (yarnState "").nodes.length ≤ 1 ∧
      parseYarnLock "" = .error "No dependencies found in the yarn.lock file." :=
  ⟨by decide, claim_C1_amended.2.2 "" (by decide)⟩

/-- C2, counterexample to the claim as stated: pnpm is one of the
three recognized selector values, yet the format-selection step fails
for it with the unsupported-format error. -/
theorem claim_C2_counterexample :
    isUnsupportedErr (parseLockfile ⟨some plEmptyDoc, ""⟩ .pnpm) = true := rfl

/-- C2 as amended: the unsupported-format failure is raised exactly
for the pnpm selector; for the two implemented selectors the
dispatch never produces that failure (any failure they surface is a
parse failure with a different message). -/
theorem claim_C2_amended :
    ∀ c : LockContent,
      parseLockfile c .pnpm = .error unsupportedMsg ∧
      isUnsupportedErr (parseLockfile c .packageLock) = false ∧
      isUnsupportedErr (parseLockfile c .yarn) = false := by
  intro c
  refine ⟨rfl, ?_, ?_⟩
  · cases hj : c.asJson with
    | some pl =>
      have h : parseLockfile c .packageLock = .ok ⟨plNodes pl, plValidLinks pl⟩ := by
        simp [parseLockfile, hj, parsePackageLock_eq]
      rw [h]
      rfl
    | none =>
      have h : parseLockfile c .packageLock =
          .error ("Failed to parse lockfile: " ++ "Unexpected token in JSON") := by
        simp [parseLockfile, hj]
      rw [h]
      decide
  · rcases parseYarnLock_error_shape c.raw with he | ⟨g, he⟩
    · have h : parseLockfile c .yarn =
          .error ("Failed to parse lockfile: " ++
            "No dependencies found in the yarn.lock file.") := by
        simp [parseLockfile, he]
      rw [h]
      decide
    · have h : parseLockfile c .yarn = .ok g := by
        simp [parseLockfile, he]
      rw [h]
      rfl

/-- C3, counterexample to the claim as stated: a yarn document with
the same package name in two distinct versions parses successfully,
yet no node carries the conflict flag, because the block-text parser
never runs conflict detection. -/
theorem claim_C3_counterexample :
    parseYarnLock yConf = .ok gYConf ∧
    (⟨"foo@1.0.0", "foo", "1.0.0", none, false⟩ : NodeType) ∈ gYConf.nodes ∧
    (⟨"foo@2.0.0", "foo", "2.0.0", none, false⟩ : NodeType) ∈ gYConf.nodes ∧
    ∀ n ∈ gYConf.nodes, n.hasMultipleVersions = false :=
  ⟨rfl, by decide, by decide, by decide⟩

/-- C3 as amended: in the JSON-table family a returned node carries
the conflict flag exactly when the tracked name-to-versions index
records more than one distinct version for its name (the root node
itself is not recorded in the index); in the block-text family the
flag is never set on any returned node. -/
theorem claim_C3_amended :
    (∀ (pl : PackageLock) (g : DependencyGraphData), parsePackageLock pl = .ok g →
      ∀ n ∈ g.nodes, (n.hasMultipleVersions = true ↔
        ∃ e ∈ (plState pl).pv, e.1 = n.name ∧ 1 < e.2.length)) ∧
    (∀ (content : String) (g : DependencyGraphData), parseYarnLock content = .ok g →
      ∀ n ∈ g.nodes, n.hasMultipleVersions = false) := by
  constructor
  · intro pl g hok n hn
    have hg : g = ⟨plNodes pl, plValidLinks pl⟩ := by
      rw [parsePackageLock_eq pl] at hok
      exact (Except.ok.inj hok).symm
    subst hg
    rw [plNodes_eq] at hn
    simp only [List.mem_map] at hn
    obtain ⟨m, hm, rfl⟩ := hn
    have hflag : m.hasMultipleVersions = false :=
      plState_nodes_pred (fun k => k.hasMultipleVersions = false) (fun a b c => rfl) pl m hm
    constructor
    · intro h
      have h2 : pvFlag (plState pl).pv m.name = true := by
        simpa [flagUpd, hflag] using h
      rw [pvFlag, List.any_eq_true] at h2
      obtain ⟨e, he, hee⟩ := h2
      rw [Bool.and_eq_true, decide_eq_true_iff, decide_eq_true_iff] at hee
      exact ⟨e, he, hee.2, hee.1⟩
    · rintro ⟨e, he, h1, h2⟩
      have h3 : pvFlag (plState pl).pv m.name = true := by
        rw [pvFlag, List.any_eq_true]
        exact ⟨e, he, by rw [Bool.and_eq_true, decide_eq_true_iff, decide_eq_true_iff]
                         exact ⟨h2, h1⟩⟩
      show (flagUpd (plState pl).pv m).hasMultipleVersions = true
      rw [flagUpd, hflag, h3]
      rfl
  · intro content g hok n hn
    obtain ⟨hlen, hg⟩ := parseYarnLock_ok_inv hok
    subst hg
    exact yarnState_nodes_pred (fun k => k.hasMultipleVersions = false)
      (fun a b => rfl) rfl content n hn

/-- Witness for C3 at a concrete document with a conflict on x. -/
theorem claim_C3_witness :
    parsePackageLock plW3 = .ok gW3 ∧ nX1 ∈ gW3.nodes ∧
      (nX1.hasMultipleVersions = true ↔
        ∃ e ∈ (plState plW3).pv, e.1 = nX1.name ∧ 1 < e.2.length) :=
  ⟨rfl, by decide, claim_C3_amended.1 plW3 gW3 rfl nX1 (by decide)⟩

/-- C4, counterexample to the claim as stated: the scoped entry path
carries exactly one node_modules segment, so the claim promises an
extra root edge, yet the returned graph has no links at all: the code
tests for exactly two slash-separated path segments, and a scoped
path has three. -/
theorem claim_C4_counterexample :
    ("node_modules/@scope/pkg", entryScoped) ∈ plScoped.packages ∧
      parsePackageLock plScoped = .ok gScoped ∧ gScoped.links = [] :=
  ⟨List.Mem.head _, rfl, rfl⟩

/-- C4 as amended: a table entry receives the extra root edge,
carrying its own dependency kind, exactly for paths of two
slash-separated segments (unscoped direct children of the root);
scoped direct children do not qualify. -/
theorem claim_C4_amended (pl : PackageLock) (e : String × PkgEntry) (g : DependencyGraphData)
    (he : e ∈ pl.packages) (hne : e.1 ≠ "") (hp : (jsSplit "/" e.1).length = 2)
    (hok : parsePackageLock pl = .ok g) :
    (⟨plRootId pl, pkgNodeId e, some (pkgKind e)⟩ : LinkType) ∈ g.links := by
  have hg : g = ⟨plNodes pl, plValidLinks pl⟩ := by
    rw [parsePackageLock_eq pl] at hok
    exact (Except.ok.inj hok).symm
  subst hg
  refine (mem_plValidLinks_iff pl _).mpr ⟨?_, ?_, ?_⟩
  · refine plState_links_mem he ?_
    unfold pkgNewLinks
    rw [if_neg hne, if_pos hp]
    exact List.mem_append_right _ (List.mem_singleton.mpr rfl)
  · rw [exists_id_plNodes_iff]
    exact ⟨plRootNode pl, plState_root_mem pl, rfl⟩
  · rw [exists_id_plNodes_iff]
    exact plState_exists_nodeId he hne

/-- Witness for C4 at a concrete two-segment path. -/
theorem claim_C4_witness :
    ("node_modules/a", entryA) ∈ plW.packages ∧
      (jsSplit "/" "node_modules/a").length = 2 ∧
      (⟨plRootId plW, pkgNodeId ("node_modules/a", entryA),
        some (pkgKind ("node_modules/a", entryA))⟩ : LinkType) ∈ gW.links :=
  ⟨List.Mem.head _, by decide,
    claim_C4_amended plW ("node_modules/a", entryA) gW (List.Mem.head _)
      (by decide) (by decide) rfl⟩

/-- C6: for a yarn block that yields a non-empty package name and a
non-empty quoted version, the block creates or reuses the node
name at version, always appends one link from the synthetic root to
that node, and then appends exactly the spec-side dependency links:
each matched entry of the dependency section links the block node to
the first already-known node (the updated node map searched in
insertion order) sharing the dependency name, and produces no link
when no such node exists yet. -/
theorem claim_C6_block_contract (st : DependencyGraphData) (block : String)
    (h1 : jsTrim block ≠ "")
    (h2 : (jsSplit "\n" block).headD "" ≠ "" ∧
      jsIncludesChar ':' ((jsSplit "\n" block).headD ""))
    (h3 : yarnBlockName block ≠ "")
    (h4 : yarnBlockVersion (jsSplit "\n" block).tail ≠ "") :
    (∃ n ∈ (processBlock st block).nodes,
        n.id = yarnBlockName block ++ "@" ++ yarnBlockVersion (jsSplit "\n" block).tail) ∧
      (processBlock st block).links =
        st.links ++
          ⟨yarnRootId,
            yarnBlockName block ++ "@" ++ yarnBlockVersion (jsSplit "\n" block).tail, none⟩ ::
          specYarnDeps
            (addNodeIfMissing st.nodes
              ⟨yarnBlockName block ++ "@" ++ yarnBlockVersion (jsSplit "\n" block).tail,
                yarnBlockName block, yarnBlockVersion (jsSplit "\n" block).tail, none, false⟩)
            (yarnBlockName block ++ "@" ++ yarnBlockVersion (jsSplit "\n" block).tail)
            (jsSplit "\n" block).tail false := by
  rw [processBlock_eq_core st block h1 h2 ⟨h3, h4⟩, processBlockCore_eq]
  constructor
  · exact exists_id_addNodeIfMissing _ _
  · rw [yarnDepLoop_eq_spec]

/-- Witness for C6 at a concrete block with a resolvable dependency. -/
theorem claim_C6_witness :
    (jsTrim blockW6 ≠ "" ∧ yarnBlockName blockW6 ≠ "" ∧
      yarnBlockVersion (jsSplit "\n" blockW6).tail ≠ "") ∧
    ((∃ n ∈ (processBlock stW6 blockW6).nodes,
        n.id = yarnBlockName blockW6 ++ "@" ++ yarnBlockVersion (jsSplit "\n" blockW6).tail) ∧
      (processBlock stW6 blockW6).links =
        stW6.links ++
          ⟨yarnRootId,
            yarnBlockName blockW6 ++ "@" ++ yarnBlockVersion (jsSplit "\n" blockW6).tail, none⟩ ::
          specYarnDeps
            (addNodeIfMissing stW6.nodes
              ⟨yarnBlockName blockW6 ++ "@" ++ yarnBlockVersion (jsSplit "\n" blockW6).tail,
                yarnBlockName blockW6, yarnBlockVersion (jsSplit "\n" blockW6).tail, none, false⟩)
            (yarnBlockName blockW6 ++ "@" ++ yarnBlockVersion (jsSplit "\n" blockW6).tail)
            (jsSplit "\n" blockW6).tail false) :=
  ⟨⟨by decide, by decide, by decide⟩,
    claim_C6_block_contract stW6 blockW6 (by decide) (by decide) (by decide) (by decide)⟩

/-- C7: in the modern flat shape, for a table entry and one of its
declared dependencies, a link from the entry node to the id rebuilt
from the verbatim declared version string survives into the output
exactly when some returned node carries that exact id; declared
ranges that match no resolved version textually are dropped by the
validation filter. -/
theorem claim_C7_declared_edges (pl : PackageLock) (e : String × PkgEntry)
    (dv : String × String) (g : DependencyGraphData)
    (he : e ∈ pl.packages) (hne : e.1 ≠ "") (hdv : dv ∈ e.2.dependencies)
    (hok : parsePackageLock pl = .ok g) :
    ((∃ l ∈ g.links, l.source = pkgNodeId e ∧ l.target = dv.1 ++ "@" ++ dv.2) ↔
      ∃ n ∈ g.nodes, n.id = dv.1 ++ "@" ++ dv.2) := by
  have hg : g = ⟨plNodes pl, plValidLinks pl⟩ := by
    rw [parsePackageLock_eq pl] at hok
    exact (Except.ok.inj hok).symm
  subst hg
  constructor
  · rintro ⟨l, hl, hsrc, htgt⟩
    have h := (mem_plValidLinks_iff pl l).mp hl
    rw [← htgt]
    exact h.2.2
  · intro htgt
    refine ⟨⟨pkgNodeId e, dv.1 ++ "@" ++ dv.2, some (pkgKind e)⟩, ?_, rfl, rfl⟩
    refine (mem_plValidLinks_iff pl _).mpr ⟨?_, ?_, ?_⟩
    · refine plState_links_mem he ?_
      unfold pkgNewLinks
      rw [if_neg hne]
      exact List.mem_append_left _ (List.mem_map.mpr ⟨dv, hdv, rfl⟩)
    · rw [exists_id_plNodes_iff]
      exact plState_exists_nodeId he hne
    · exact htgt

/-- Witness for C7 at a concrete entry with a resolvable declared
dependency. -/
theorem claim_C7_witness :
    (("node_modules/a", entryA) ∈ plW.packages ∧ ("b", "2.0.0") ∈ entryA.dependencies) ∧
      ((∃ l ∈ gW.links, l.source = pkgNodeId ("node_modules/a", entryA) ∧
          l.target = "b" ++ "@" ++ "2.0.0") ↔
        ∃ n ∈ gW.nodes, n.id = "b" ++ "@" ++ "2.0.0") :=
  ⟨⟨List.Mem.head _, by decide⟩,
    claim_C7_declared_edges plW ("node_modules/a", entryA) ("b", "2.0.0") gW
      (List.Mem.head _) (by decide) (by decide) rfl⟩

end DepVis
